import Mathlib

/-!
Verification of swiftctl's core components against its specification.

The Go source is embedded shallowly: strings are `List Char`, the regular
expressions of `internal/build/builder.go` are realised as executable
matching functions with RE2 leftmost-first (greedy) semantics, channels
become lists, and the concurrent orchestration loops become explicit
state-transition functions over traces of abstract actions.
-/

namespace Swiftctl

/-! ### Character classes

`reSpace` is the RE2 class matched by a backslash-s: tab, newline, form
feed, carriage return, space.  `goSpace` is Go's unicode.IsSpace over the
characters TrimSpace actually strips (space, tab, newline, vertical tab,
form feed, carriage return, NEL, NBSP).  `wordChar` is the RE2 word class
(ASCII letters, digits, underscore); `dotChar` is what the RE2 dot
matches (any character except newline). -/

def reSpace (c : Char) : Bool :=
  c = ' ' || c = '\t' || c = '\n' || c = '\x0c' || c = '\r'

def goSpace (c : Char) : Bool :=
  c = ' ' || c = '\t' || c = '\n' || c = '\x0b' || c = '\x0c' || c = '\r' ||
  c = '\x85' || c = '\xa0'

def wordChar (c : Char) : Bool :=
  c.isAlphanum || c = '_'

def dotChar (c : Char) : Bool :=
  c != '\n'

def noNl (s : List Char) : Bool :=
  s.all dotChar

/-- Model of Go's strings.TrimSpace: drop leading and trailing whitespace. -/
def trimSpace (s : List Char) : List Char :=
  (((s.dropWhile goSpace).reverse.dropWhile goSpace)).reverse

/-- Model of Go's strings.Contains (substring containment), used for the
unanchored sentinel regexps whose patterns are literal text. -/
def containsSeq (pat : List Char) : List Char → Bool
  | [] => pat.isEmpty
  | c :: rest => pat.isPrefixOf (c :: rest) || containsSeq pat rest

/-- Strip a literal prefix, as an anchored literal at the head of a pattern. -/
def stripLit (lit s : List Char) : Option (List Char) :=
  if lit.isPrefixOf s then some (s.drop lit.length) else none

/-- Consume a maximal nonempty run of characters satisfying p (the
maximal-munch step for a greedy plus whose continuation cannot start with
a p-character, so no backtracking is possible). -/
def dropRun (p : Char → Bool) : List Char → Option (List Char)
  | [] => none
  | c :: rest => if p c then some (rest.dropWhile p) else none

/-- Match a trailing whitespace-plus-then-capture tail: one or more
whitespace characters followed by a nonempty newline-free capture running
to the end of the text.  Greedy: the whitespace run takes as much as it
can while leaving the capture nonempty. -/
def wsThenRest (t : List Char) : Option (List Char) :=
  let w := (t.takeWhile reSpace).length
  if w = 0 then none
  else if w < t.length then
    if noNl (t.drop w) then some (t.drop w) else none
  else if 2 ≤ w ∧ noNl (t.drop (w - 1)) then some (t.drop (w - 1))
  else none

def compileLit : List Char := ("CompileSwift").toList

def linkingLit : List Char := ("Linking").toList

def codeSignLit : List Char := ("CodeSign").toList

def warningLit : List Char := ("warning").toList

def errorLit : List Char := ("error").toList

def successLit : List Char := ("** BUILD SUCCEEDED **").toList

def failureLit : List Char := ("** BUILD FAILED **").toList

/-- Embed of compilePattern: anchored CompileSwift, whitespace, word,
whitespace, word, whitespace, capture to end. -/
def compileMatch (s : List Char) : Option (List Char) := do
  let s1 ← stripLit compileLit s
  let s2 ← dropRun reSpace s1
  let s3 ← dropRun wordChar s2
  let s4 ← dropRun reSpace s3
  let s5 ← dropRun wordChar s4
  wsThenRest s5

/-- Go's strconv.Atoi restricted to the all-digit strings produced by the
digit captures (positional decimal value). -/
def digitsToNat (ds : List Char) : Nat :=
  ds.foldl (fun acc c => acc * 10 + (c.toNat - 48)) 0

/-- A parsed diagnostic line: file, line, column, kind, message. -/
structure Diag where
  file : List Char
  lineNum : Nat
  colNum : Nat
  isError : Bool
  message : List Char
deriving DecidableEq

def expectChar (c : Char) : List Char → Option (List Char)
  | [] => none
  | d :: rest => if d = c then some rest else none

def numRun (s : List Char) : Option (Nat × List Char) :=
  match s with
  | [] => none
  | c :: _ =>
    if c.isDigit then
      some (digitsToNat (s.takeWhile Char.isDigit), s.dropWhile Char.isDigit)
    else none

/-- The part of diagnosticPattern after the file capture and its colon:
digits, colon, digits, colon, whitespace, warning-or-error, colon,
whitespace, message capture. -/
def diagTail (s : List Char) : Option (Nat × Nat × Bool × List Char) := do
  let (n1, s1) ← numRun s
  let s2 ← expectChar ':' s1
  let (n2, s3) ← numRun s2
  let s4 ← expectChar ':' s3
  let s5 ← dropRun reSpace s4
  let (isErr, s6) ←
    match stripLit warningLit s5 with
    | some r => some (false, r)
    | none =>
      match stripLit errorLit s5 with
      | some r => some (true, r)
      | none => none
  let s7 ← expectChar ':' s6
  let msg ← wsThenRest s7
  return (n1, n2, isErr, msg)

/-- Try the diagnostic pattern with the file capture of length i (the
colon separating file from line number sits at index i). -/
def diagAt (s : List Char) (i : Nat) : Option Diag :=
  match s.drop i with
  | c :: rest =>
    if c = ':' ∧ 1 ≤ i ∧ noNl (s.take i) then
      match diagTail rest with
      | some (n1, n2, isErr, msg) => some ⟨s.take i, n1, n2, isErr, msg⟩
      | none => none
    else none
  | [] => none

/-- Search colon positions from the right, so that the leading greedy
file capture is as long as possible (RE2 greedy submatch semantics). -/
def diagSearch (s : List Char) : Nat → Option Diag
  | 0 => none
  | i + 1 =>
    match diagAt s (i + 1) with
    | some d => some d
    | none => diagSearch s i

/-- Embed of diagnosticPattern: anchored greedy file capture, colon,
line, colon, column, colon, whitespace, kind, colon, whitespace,
message. -/
def diagnosticMatch (s : List Char) : Option Diag :=
  diagSearch s (s.length - 1)

/-- Embed of linkPattern: anchored Linking, whitespace, capture. -/
def linkMatch (s : List Char) : Option (List Char) := do
  let s1 ← stripLit linkingLit s
  wsThenRest s1

/-- Embed of signPattern: anchored CodeSign, whitespace, capture. -/
def signMatch (s : List Char) : Option (List Char) := do
  let s1 ← stripLit codeSignLit s
  wsThenRest s1

/-- Embed of successPattern.MatchString: unanchored literal containment. -/
def successMatch (s : List Char) : Bool :=
  containsSeq successLit s

/-- Embed of failurePattern.MatchString: unanchored literal containment. -/
def failureMatch (s : List Char) : Bool :=
  containsSeq failureLit s

/-! ### Build events and results (internal/build/builder.go) -/

inductive EventType
  | compileStart
  | compileFile
  | link
  | sign
  | warning
  | error
  | success
  | failure
deriving DecidableEq

structure Event where
  type : EventType
  message : List Char
  file : List Char
  lineNum : Nat
  colNum : Nat
deriving DecidableEq

structure BuildResult where
  success : Bool
  productPath : List Char
  duration : Nat
  warnings : List Event
  errors : List Event
deriving DecidableEq

def initResult : BuildResult := ⟨false, [], 0, [], []⟩

/-- Embed of outputParser.parseLine.  Returns the updated result and the
event sent on the events channel (none when no pattern matched).  Each
recognizer is tried in source order; the first match wins. -/
def parseLine (r : BuildResult) (line0 : List Char) : BuildResult × Option Event :=
  let line := trimSpace line0
  if line.isEmpty then (r, none)
  else
    match compileMatch line with
    | some f => (r, some ⟨EventType.compileFile, f, f, 0, 0⟩)
    | none =>
      match diagnosticMatch line with
      | some d =>
        if d.isError then
          (⟨r.success, r.productPath, r.duration, r.warnings,
            r.errors ++ [⟨EventType.error, d.message, d.file, d.lineNum, d.colNum⟩]⟩,
           some ⟨EventType.error, d.message, d.file, d.lineNum, d.colNum⟩)
        else
          (⟨r.success, r.productPath, r.duration,
            r.warnings ++ [⟨EventType.warning, d.message, d.file, d.lineNum, d.colNum⟩],
            r.errors⟩,
           some ⟨EventType.warning, d.message, d.file, d.lineNum, d.colNum⟩)
      | none =>
        match linkMatch line with
        | some t => (r, some ⟨EventType.link, t, [], 0, 0⟩)
        | none =>
          match signMatch line with
          | some t => (r, some ⟨EventType.sign, t, [], 0, 0⟩)
          | none =>
            if successMatch line then
              (⟨true, r.productPath, r.duration, r.warnings, r.errors⟩,
               some ⟨EventType.success, [], [], 0, 0⟩)
            else if failureMatch line then
              (⟨false, r.productPath, r.duration, r.warnings, r.errors⟩,
               some ⟨EventType.failure, [], [], 0, 0⟩)
            else (r, none)

/-- The event parseLine emits for a line; it does not depend on the
accumulated result (proved below). -/
def lineEvent (l : List Char) : Option Event :=
  (parseLine initResult l).2

def isSuccessLine (l : List Char) : Bool :=
  match lineEvent l with
  | some e => if e.type = EventType.success then true else false
  | none => false

def isFailureLine (l : List Char) : Bool :=
  match lineEvent l with
  | some e => if e.type = EventType.failure then true else false
  | none => false

def evWarn (e : Event) : Bool :=
  if e.type = EventType.warning then true else false

def evErr (e : Event) : Bool :=
  if e.type = EventType.error then true else false

/-- Embed of the Build select loop's parsing phase: feed each delivered
line to parseLine in arrival order, collecting the emitted events. -/
def parseAllFrom (r : BuildResult) : List (List Char) → BuildResult × List Event
  | [] => (r, [])
  | l :: rest =>
    let p := parseLine r l
    let q := parseAllFrom p.1 rest
    (q.1, p.2.toList ++ q.2)

def parseAll (lines : List (List Char)) : BuildResult × List Event :=
  parseAllFrom initResult lines

/-- Embed of Build's finalization: if the executor's error channel
delivered a non-nil error (after k lines had been parsed), the result's
success flag is forced false and Build returns early; otherwise the
result is whatever the full line sequence accumulated. -/
def buildFinal (lines : List (List Char)) (procErr : Bool) (k : Nat) : BuildResult :=
  if procErr then
    let r := (parseAllFrom initResult (lines.take k)).1
    ⟨false, r.productPath, r.duration, r.warnings, r.errors⟩
  else (parseAllFrom initResult lines).1

/-- The effect of one sentinel-classified line on the success flag. -/
def stepS (b : Bool) (l : List Char) : Bool :=
  if isSuccessLine l then true else if isFailureLine l then false else b

/-- No line of xs is classified as the failure sentinel. -/
def NoFailureIn (xs : List (List Char)) : Prop :=
  ∀ y ∈ xs, isFailureLine y = false

/-- Some line of xs is classified as the success sentinel and no later
line is classified as the failure sentinel. -/
def SuccessThenNoFailure (xs : List (List Char)) : Prop :=
  ∃ pre x post, xs = pre ++ x :: post ∧ isSuccessLine x = true ∧ NoFailureIn post

/-- Master characterization of parseLine: the pair it returns is fully
determined by the per-line classification lineEvent, with the result
mutated according to the event's kind. -/
theorem parseLine_eq (r : BuildResult) (l : List Char) :
    parseLine r l =
      (match lineEvent l with
       | some e =>
         match e.type with
         | EventType.warning =>
           ⟨r.success, r.productPath, r.duration, r.warnings ++ [e], r.errors⟩
         | EventType.error =>
           ⟨r.success, r.productPath, r.duration, r.warnings, r.errors ++ [e]⟩
         | EventType.success =>
           ⟨true, r.productPath, r.duration, r.warnings, r.errors⟩
         | EventType.failure =>
           ⟨false, r.productPath, r.duration, r.warnings, r.errors⟩
         | _ => r
       | none => r,
       lineEvent l) := by
  unfold lineEvent
  simp only [parseLine]
  by_cases h0 : (trimSpace l).isEmpty = true
  · rw [if_pos h0, if_pos h0]
  · rw [if_neg h0, if_neg h0]
    cases h1 : compileMatch (trimSpace l) with
    | some f => rfl
    | none =>
      dsimp only
      cases h2 : diagnosticMatch (trimSpace l) with
      | some d =>
        dsimp only
        by_cases hd : d.isError = true
        · rw [if_pos hd, if_pos hd]
        · rw [if_neg hd, if_neg hd]
      | none =>
        dsimp only
        cases h3 : linkMatch (trimSpace l) with
        | some t => rfl
        | none =>
          dsimp only
          cases h4 : signMatch (trimSpace l) with
          | some t => rfl
          | none =>
            dsimp only
            by_cases h5 : successMatch (trimSpace l) = true
            · rw [if_pos h5, if_pos h5]
            · rw [if_neg h5, if_neg h5]
              by_cases h6 : failureMatch (trimSpace l) = true
              · rw [if_pos h6, if_pos h6]
              · rw [if_neg h6, if_neg h6]

theorem parseLine_snd_eq (r : BuildResult) (l : List Char) :
    (parseLine r l).2 = lineEvent l := by
  rw [parseLine_eq]

theorem parseLine_success (r : BuildResult) (l : List Char) :
    ((parseLine r l).1).success = stepS r.success l := by
  rw [parseLine_eq]
  unfold stepS isSuccessLine isFailureLine
  cases hev : lineEvent l with
  | none => simp
  | some e => cases he : e.type <;> simp [he]

theorem parseLine_warnings (r : BuildResult) (l : List Char) :
    ((parseLine r l).1).warnings = r.warnings ++ (lineEvent l).toList.filter evWarn := by
  rw [parseLine_eq]
  cases hev : lineEvent l with
  | none => simp
  | some e => cases he : e.type <;> simp [evWarn, he]

theorem parseLine_errors (r : BuildResult) (l : List Char) :
    ((parseLine r l).1).errors = r.errors ++ (lineEvent l).toList.filter evErr := by
  rw [parseLine_eq]
  cases hev : lineEvent l with
  | none => simp
  | some e => cases he : e.type <;> simp [evErr, he]

theorem parseAllFrom_events (lines : List (List Char)) : ∀ r : BuildResult,
    (parseAllFrom r lines).2 = lines.filterMap lineEvent := by
  induction lines with
  | nil => intro r; rfl
  | cons l rest ih =>
    intro r
    show ((parseLine r l).2).toList ++ (parseAllFrom (parseLine r l).1 rest).2 = _
    rw [ih, parseLine_snd_eq, List.filterMap_cons]
    cases lineEvent l <;> simp

theorem parseAllFrom_warnings (lines : List (List Char)) : ∀ r : BuildResult,
    (parseAllFrom r lines).1.warnings =
      r.warnings ++ (lines.filterMap lineEvent).filter evWarn := by
  induction lines with
  | nil => intro r; simp [parseAllFrom]
  | cons l rest ih =>
    intro r
    show (parseAllFrom (parseLine r l).1 rest).1.warnings = _
    rw [ih, parseLine_warnings, List.filterMap_cons]
    cases lineEvent l with
    | none => simp
    | some e => cases he : evWarn e <;> simp [List.filter_cons, he]

theorem parseAllFrom_errors (lines : List (List Char)) : ∀ r : BuildResult,
    (parseAllFrom r lines).1.errors =
      r.errors ++ (lines.filterMap lineEvent).filter evErr := by
  induction lines with
  | nil => intro r; simp [parseAllFrom]
  | cons l rest ih =>
    intro r
    show (parseAllFrom (parseLine r l).1 rest).1.errors = _
    rw [ih, parseLine_errors, List.filterMap_cons]
    cases lineEvent l with
    | none => simp
    | some e => cases he : evErr e <;> simp [List.filter_cons, he]

theorem parseAllFrom_success (lines : List (List Char)) : ∀ r : BuildResult,
    (parseAllFrom r lines).1.success = lines.foldl stepS r.success := by
  induction lines with
  | nil => intro r; rfl
  | cons l rest ih =>
    intro r
    show (parseAllFrom (parseLine r l).1 rest).1.success = _
    rw [ih, List.foldl_cons, parseLine_success]

theorem noFailureIn_cons (l : List Char) (ls : List (List Char)) :
    NoFailureIn (l :: ls) ↔ isFailureLine l = false ∧ NoFailureIn ls := by
  simp [NoFailureIn]

theorem successThenNoFailure_cons (l : List Char) (ls : List (List Char)) :
    SuccessThenNoFailure (l :: ls) ↔
      (isSuccessLine l = true ∧ NoFailureIn ls) ∨ SuccessThenNoFailure ls := by
  constructor
  · rintro ⟨pre, x, post, heq, hs, hn⟩
    cases pre with
    | nil =>
      simp only [List.nil_append, List.cons.injEq] at heq
      obtain ⟨h1, h2⟩ := heq
      subst h1; subst h2
      exact Or.inl ⟨hs, hn⟩
    | cons p pre2 =>
      simp only [List.cons_append, List.cons.injEq] at heq
      obtain ⟨h1, h2⟩ := heq
      exact Or.inr ⟨pre2, x, post, h2, hs, hn⟩
  · rintro (⟨hs, hn⟩ | ⟨pre, x, post, heq, hs, hn⟩)
    · exact ⟨[], l, ls, rfl, hs, hn⟩
    · exact ⟨l :: pre, x, post, by rw [heq]; rfl, hs, hn⟩

theorem foldl_stepS_eq_true (xs : List (List Char)) : ∀ b : Bool,
    xs.foldl stepS b = true ↔
      SuccessThenNoFailure xs ∨ (b = true ∧ NoFailureIn xs) := by
  induction xs with
  | nil =>
    intro b
    constructor
    · intro h; exact Or.inr ⟨h, by intro y hy; cases hy⟩
    · rintro (⟨pre, x, post, heq, _, _⟩ | ⟨hb, _⟩)
      · cases pre <;> simp at heq
      · exact hb
  | cons l ls ih =>
    intro b
    rw [List.foldl_cons, ih (stepS b l), successThenNoFailure_cons, noFailureIn_cons]
    unfold stepS
    cases hS : isSuccessLine l <;> cases hF : isFailureLine l <;> simp [hS, hF] <;> tauto

/-- Claim C2: within one Build invocation, the finalized result's success
flag is true iff some line was classified as the success sentinel, no
later line was classified as the failure sentinel, and the executor
reported no process error. -/
theorem c2_build_success_iff (lines : List (List Char)) (procErr : Bool) (k : Nat) :
    (buildFinal lines procErr k).success = true ↔
      (procErr = false ∧
        ∃ pre x post, lines = pre ++ x :: post ∧ isSuccessLine x = true ∧
          ∀ y ∈ post, isFailureLine y = false) := by
  unfold buildFinal
  cases procErr with
  | true => simp
  | false =>
    simp only [if_neg (by simp : ¬(false = true))]
    rw [parseAllFrom_success]
    have h0 : initResult.success = false := rfl
    rw [h0, foldl_stepS_eq_true]
    unfold SuccessThenNoFailure NoFailureIn
    simp

/-- Claim C8: the emitted event sequence lists, in input order, exactly
the per-line classifications, and the result's warnings and errors lists
are exactly the warning and error events of that sequence. -/
theorem c8_events_consistent (lines : List (List Char)) :
    (parseAll lines).2 = lines.filterMap lineEvent ∧
      (parseAll lines).1.warnings = ((parseAll lines).2).filter evWarn ∧
      (parseAll lines).1.errors = ((parseAll lines).2).filter evErr := by
  unfold parseAll
  refine ⟨parseAllFrom_events lines initResult, ?_, ?_⟩
  · rw [parseAllFrom_events lines initResult]
    have h := parseAllFrom_warnings lines initResult
    simpa using h
  · rw [parseAllFrom_events lines initResult]
    have h := parseAllFrom_errors lines initResult
    simpa using h

/-- Claim C9: a blank line, or a line matching none of the recognizers
after trimming, produces no event and leaves the result unchanged. -/
theorem c9_unmatched_frame (r : BuildResult) (l : List Char)
    (h : trimSpace l = [] ∨
      (compileMatch (trimSpace l) = none ∧ diagnosticMatch (trimSpace l) = none ∧
       linkMatch (trimSpace l) = none ∧ signMatch (trimSpace l) = none ∧
       successMatch (trimSpace l) = false ∧ failureMatch (trimSpace l) = false)) :
    parseLine r l = (r, none) := by
  unfold parseLine
  rcases h with h | ⟨h1, h2, h3, h4, h5, h6⟩
  · simp [h]
  · simp [h1, h2, h3, h4, h5, h6]

/-- Witness for C9 at a concrete unclassifiable line. -/
theorem c9_unmatched_frame_witness :
    parseLine initResult (("Ld build normal output noise").toList) =
      (initResult, none) :=
  c9_unmatched_frame initResult (("Ld build normal output noise").toList)
    (Or.inr (by decide))

theorem dropWhile_head_false (p : Char → Bool) :
    ∀ (s c : List Char) (a : Char), List.dropWhile p s = a :: c → p a = false := by
  intro s
  induction s with
  | nil => intro c a h; cases h
  | cons b bs ih =>
    intro c a h
    rw [List.dropWhile_cons] at h
    by_cases hb : p b = true
    · rw [if_pos hb] at h; exact ih c a h
    · rw [if_neg hb] at h
      cases h
      simpa using hb

theorem trimSpace_idem (l : List Char) : trimSpace (trimSpace l) = trimSpace l := by
  show List.rdropWhile goSpace
      (List.dropWhile goSpace (List.rdropWhile goSpace (List.dropWhile goSpace l))) =
    List.rdropWhile goSpace (List.dropWhile goSpace l)
  have h2 : List.dropWhile goSpace (List.rdropWhile goSpace (List.dropWhile goSpace l)) =
      List.rdropWhile goSpace (List.dropWhile goSpace l) := by
    cases hc : List.rdropWhile goSpace (List.dropWhile goSpace l) with
    | nil => rfl
    | cons c t =>
      obtain ⟨r, hr⟩ := List.rdropWhile_prefix goSpace (List.dropWhile goSpace l)
      rw [hc, List.cons_append] at hr
      have hgc : goSpace c = false :=
        dropWhile_head_false goSpace l (t ++ r) c hr.symm
      rw [List.dropWhile_cons, if_neg (by simp [hgc])]
  rw [h2, List.rdropWhile_idempotent]

/-- Claim C10: parseLine strips whitespace before classification, so a
line and its trimmed form produce the same result mutation and event. -/
theorem c10_trim_equivariant (r : BuildResult) (l : List Char) :
    parseLine r l = parseLine r (trimSpace l) := by
  conv_rhs => rw [parseLine, trimSpace_idem]
  rfl

/-! ### Devices (internal/device/manager.go, internal/run/runner.go) -/

structure Dev where
  udid : List Char
  name : List Char
  platform : List Char
  osVersion : List Char
  state : List Char
  isAvailable : Bool
deriving DecidableEq

def StateBooted : List Char := ("Booted").toList

/-- Embed of Manager.List over the parsed simctl inventory: keep the
devices of the requested platform (all platforms when it is empty) that
are available, restricted to booted ones when onlyBooted is set, in
inventory order. -/
def listDevices (inventory : List Dev) (platform : List Char) (onlyBooted : Bool) :
    List Dev :=
  inventory.filter (fun d =>
    (platform.isEmpty || decide (d.platform = platform)) &&
    d.isAvailable &&
    (!onlyBooted || decide (d.state = StateBooted)))

/-- Model of Go's strings.ToLower over the ASCII names involved. -/
def lowerStr (s : List Char) : List Char :=
  s.map Char.toLower

/-- Embed of Manager.Get: over the full availability-filtered inventory,
try an exact identifier match, then a case-insensitive exact name match,
then a case-insensitive substring name match. -/
def devGet (inventory : List Dev) (q : List Char) : Option Dev :=
  let devices := listDevices inventory [] false
  match devices.find? (fun d => decide (d.udid = q)) with
  | some d => some d
  | none =>
    let ql := lowerStr q
    match devices.find? (fun d => decide (lowerStr d.name = ql)) with
    | some d => some d
    | none => devices.find? (fun d => containsSeq ql (lowerStr d.name))

/-- Embed of Runner.resolveDevice: an explicit name goes through devGet;
otherwise list the platform's devices, fail on an empty list, prefer a
booted device, else take the first. -/
def resolveDevice (inventory : List Dev) (deviceName : List Char) (platform : List Char) :
    Option Dev :=
  if deviceName.isEmpty = false then devGet inventory deviceName
  else
    let devices := listDevices inventory platform false
    if devices.isEmpty then none
    else
      match devices.find? (fun d => decide (d.state = StateBooted)) with
      | some d => some d
      | none => devices.head?

/-- Modelled from the claim's words for comparison: exact resolution of
an explicit device name or identifier. -/
def devGetExact (inventory : List Dev) (q : List Char) : Option Dev :=
  (listDevices inventory [] false).find?
    (fun d => decide (d.udid = q) || decide (d.name = q))

def devIPhone : Dev :=
  ⟨("UD-1").toList, ("iPhone 15 Pro").toList, ("ios").toList, ("17.0").toList,
   ("Shutdown").toList, true⟩

/-- Counterexample to claim C4: the explicit query iphone is resolved to
the device named iPhone 15 Pro by substring matching, although it is
neither an exact identifier nor an exact (even case-insensitive) name,
so exact resolution would have failed. -/
theorem c4_counterexample :
    resolveDevice [devIPhone] (("iphone").toList) (("ios").toList) = some devIPhone ∧
    devIPhone.udid ≠ ("iphone").toList ∧
    lowerStr devIPhone.name ≠ lowerStr (("iphone").toList) ∧
    devGetExact [devIPhone] (("iphone").toList) = none := by
  decide

/-- Claim C4 as amended: an explicit device name or identifier is
resolved over the availability-filtered inventory by exact identifier
match, then case-insensitive exact name match, then case-insensitive
substring name match, failing only when all three fail; without an
explicit name, the platform's device list is searched, a booted device
is preferred, else the first device is chosen, and resolution fails iff
the list is empty. -/
theorem c4_amended (inventory : List Dev) (q p : List Char) :
    (q ≠ [] → resolveDevice inventory q p = devGet inventory q) ∧
    (∀ d, devGet inventory q = some d →
      d ∈ listDevices inventory [] false ∧
      (d.udid = q ∨ lowerStr d.name = lowerStr q ∨
        containsSeq (lowerStr q) (lowerStr d.name) = true)) ∧
    (devGet inventory q = none ↔ ∀ d ∈ listDevices inventory [] false,
      d.udid ≠ q ∧ lowerStr d.name ≠ lowerStr q ∧
        containsSeq (lowerStr q) (lowerStr d.name) = false) ∧
    (q = [] → listDevices inventory p false = [] → resolveDevice inventory q p = none) ∧
    (q = [] → ∀ d,
      (listDevices inventory p false).find? (fun x => decide (x.state = StateBooted)) = some d →
      resolveDevice inventory q p = some d) ∧
    (q = [] →
      (listDevices inventory p false).find? (fun x => decide (x.state = StateBooted)) = none →
      resolveDevice inventory q p = (listDevices inventory p false).head?) := by
  constructor
  · intro hq
    unfold resolveDevice
    rw [if_pos]
    simp [List.isEmpty_iff, hq]
  constructor
  · intro d hd
    unfold devGet at hd
    dsimp only at hd
    cases h1 : (listDevices inventory [] false).find? (fun d => decide (d.udid = q)) with
    | some d1 =>
      simp only [h1] at hd
      cases hd
      exact ⟨List.mem_of_find?_eq_some h1, Or.inl (by simpa using List.find?_some h1)⟩
    | none =>
      simp only [h1] at hd
      cases h2 : (listDevices inventory [] false).find?
          (fun d => decide (lowerStr d.name = lowerStr q)) with
      | some d2 =>
        simp only [h2] at hd
        cases hd
        exact ⟨List.mem_of_find?_eq_some h2, Or.inr (Or.inl (by simpa using List.find?_some h2))⟩
      | none =>
        simp only [h2] at hd
        exact ⟨List.mem_of_find?_eq_some hd, Or.inr (Or.inr (by simpa using List.find?_some hd))⟩
  constructor
  · unfold devGet
    dsimp only
    constructor
    · intro h
      cases h1 : (listDevices inventory [] false).find? (fun d => decide (d.udid = q)) with
      | some d1 => simp only [h1] at h; cases h
      | none =>
        simp only [h1] at h
        cases h2 : (listDevices inventory [] false).find?
            (fun d => decide (lowerStr d.name = lowerStr q)) with
        | some d2 => simp only [h2] at h; cases h
        | none =>
          simp only [h2] at h
          intro d hdmem
          refine ⟨?_, ?_, ?_⟩
          · have := List.find?_eq_none.mp h1 d hdmem
            simpa using this
          · have := List.find?_eq_none.mp h2 d hdmem
            simpa using this
          · have := List.find?_eq_none.mp h d hdmem
            simpa using this
    · intro hall
      have h1 : (listDevices inventory [] false).find? (fun d => decide (d.udid = q)) = none :=
        List.find?_eq_none.mpr (fun d hd => by simpa using (hall d hd).1)
      have h2 : (listDevices inventory [] false).find?
          (fun d => decide (lowerStr d.name = lowerStr q)) = none :=
        List.find?_eq_none.mpr (fun d hd => by simpa using (hall d hd).2.1)
      have h3 : (listDevices inventory [] false).find?
          (fun d => containsSeq (lowerStr q) (lowerStr d.name)) = none :=
        List.find?_eq_none.mpr (fun d hd => by simpa using (hall d hd).2.2)
      simp only [h1, h2, h3]
  constructor
  · intro hq hnil
    unfold resolveDevice
    rw [if_neg (by simp [hq])]
    rw [if_pos (by simp [hnil])]
  constructor
  · intro hq d hfind
    unfold resolveDevice
    rw [if_neg (by simp [hq])]
    rw [if_neg (by simp [List.isEmpty_iff, List.find?_eq_none] at hfind ⊢; intro h; exact absurd hfind (by simp [h]))]
    rw [hfind]
  · intro hq hfind
    unfold resolveDevice
    rw [if_neg (by simp [hq])]
    by_cases hnil : (listDevices inventory p false).isEmpty = true
    · rw [if_pos hnil]
      rw [List.isEmpty_iff] at hnil
      rw [hnil]
      rfl
    · rw [if_neg hnil, hfind]

/-- Witness for C4's amended theorem at a concrete inventory: the
explicit branch agrees with devGet, and the empty-list branch fails. -/
theorem c4_amended_witness :
    resolveDevice [devIPhone] (("iphone").toList) (("ios").toList) =
      devGet [devIPhone] (("iphone").toList) ∧
    resolveDevice [] [] (("ios").toList) = none := by
  constructor
  · exact (c4_amended [devIPhone] (("iphone").toList) (("ios").toList)).1 (by decide)
  · exact (c4_amended [] [] (("ios").toList)).2.2.2.1 rfl (by decide)

/-! ### Scheme resolution (internal/run/runner.go buildCycle,
internal/build/builder.go buildArgs) -/

inductive ProjType
  | workspace
  | xcodeproj
  | spm
deriving DecidableEq

structure ProjectInfo where
  ptype : ProjType
  path : List Char
  name : List Char
  schemes : List (List Char)
deriving DecidableEq

/-- Embed of buildCycle's scheme resolution: take the explicit scheme,
falling back to the project's first known scheme when the explicit one
is empty and a known scheme exists. -/
def effectiveScheme (cfgScheme : List Char) (schemes : List (List Char)) : List Char :=
  if cfgScheme = [] then
    match schemes with
    | s :: _ => s
    | [] => cfgScheme
  else cfgScheme

/-- Embed of the scheme segment of buildArgs. -/
def schemeArgs (cfgScheme : List Char) (schemes : List (List Char)) : List (List Char) :=
  if cfgScheme ≠ [] then [("-scheme").toList, cfgScheme]
  else
    match schemes with
    | s :: _ => [("-scheme").toList, s]
    | [] => []

/-- Embed of defaultDestination. -/
def defaultDestination (platform : List Char) : List Char :=
  if platform = ("ios").toList then
    ("platform=iOS Simulator,name=iPhone 15 Pro").toList
  else if platform = ("macos").toList then ("platform=macOS").toList
  else if platform = ("watchos").toList then
    ("platform=watchOS Simulator,name=Apple Watch Series 9 (45mm)").toList
  else if platform = ("tvos").toList then
    ("platform=tvOS Simulator,name=Apple TV 4K (3rd generation)").toList
  else if platform = ("visionos").toList then
    ("platform=visionOS Simulator,name=Apple Vision Pro").toList
  else ("platform=iOS Simulator,name=iPhone 15 Pro").toList

structure BuildConfig where
  scheme : List Char
  configuration : List Char
  platform : List Char
  destination : List Char
  derivedData : List Char
  extraArgs : List (List Char)
deriving DecidableEq

/-- Embed of Builder.buildArgs: project flags, scheme, configuration,
destination, derived data path, passthrough arguments, in source order. -/
def buildArgs (proj : ProjectInfo) (cfg : BuildConfig) : List (List Char) :=
  let a0 : List (List Char) :=
    match proj.ptype with
    | ProjType.workspace => [("-workspace").toList, proj.path]
    | ProjType.xcodeproj => [("-project").toList, proj.path]
    | ProjType.spm => []
  let a1 := a0 ++ schemeArgs cfg.scheme proj.schemes
  let a2 := a1 ++
    (if cfg.configuration ≠ [] then [("-configuration").toList, cfg.configuration] else [])
  let a3 := a2 ++
    (if cfg.destination ≠ [] then [("-destination").toList, cfg.destination]
     else if cfg.platform ≠ [] then
       [("-destination").toList, defaultDestination cfg.platform]
     else [])
  let a4 := a3 ++
    (if cfg.derivedData ≠ [] then [("-derivedDataPath").toList, cfg.derivedData] else [])
  a4 ++ cfg.extraArgs

/-- Modelled from the claim's words for comparison: the precedence chain
explicit scheme, then first known scheme, then project name. -/
def effectiveSchemeClaim (cfgScheme : List Char) (projName : List Char)
    (schemes : List (List Char)) : List Char :=
  if cfgScheme ≠ [] then cfgScheme
  else
    match schemes with
    | s :: _ => s
    | [] => projName

/-- Counterexample to claim C3: with no explicit scheme and no known
schemes, buildCycle resolves the scheme to the empty string, not to the
project name MyApp as the claimed precedence chain would. -/
theorem c3_counterexample :
    effectiveScheme [] [] = [] ∧
    effectiveSchemeClaim [] (("MyApp").toList) [] = ("MyApp").toList ∧
    effectiveScheme [] [] ≠ effectiveSchemeClaim [] (("MyApp").toList) [] := by
  decide

/-- Claim C3 as amended: the effective scheme is the explicit scheme if
non-empty, else the project's first known scheme if any, else empty; the
xcodebuild invocation then carries that scheme behind a scheme flag,
omitted only when no explicit and no known scheme exists. -/
theorem c3_amended (cfgScheme : List Char) (schemes : List (List Char)) :
    (effectiveScheme cfgScheme schemes =
      if cfgScheme ≠ [] then cfgScheme
      else
        match schemes with
        | s :: _ => s
        | [] => []) ∧
    (schemeArgs (effectiveScheme cfgScheme schemes) schemes =
      if cfgScheme = [] ∧ schemes = [] then []
      else [("-scheme").toList, effectiveScheme cfgScheme schemes]) := by
  constructor
  · unfold effectiveScheme
    by_cases hc : cfgScheme = []
    · rw [if_pos hc, if_neg (by simpa using hc)]
      cases schemes with
      | nil => simpa using hc
      | cons s rest => rfl
    · rw [if_neg hc, if_pos hc]
  · unfold effectiveScheme schemeArgs
    by_cases hc : cfgScheme = []
    · cases schemes with
      | nil => simp [hc]
      | cons s rest =>
        simp only [hc, if_pos rfl]
        by_cases hs : s = []
        · simp [hs]
        · simp [hs]
    · cases schemes with
      | nil => simp [hc]
      | cons s rest => simp [hc]

/-! ### Change watcher (internal/watcher/watcher.go)

The debounce loop is embedded as a sequential state machine over a
time-ordered trace of raw filesystem events.  The single pending timer
is the optional pair of its deadline and the last recorded path: a
qualifying event whose arrival time is past the deadline sees the timer
fire first (emitting the pending change event), otherwise it stops and
replaces the timer; a timer left pending at the end of the trace fires.
Emitted pairs are (firing timestamp, path). -/

def watchPatterns : List (List Char) :=
  [(".swift").toList, (".m").toList, (".h").toList, (".c").toList,
   (".cpp").toList, (".metal").toList, (".xib").toList, (".storyboard").toList]

/-- The final slash-separated element of a path. -/
def lastElem (path : List Char) : List Char :=
  (path.reverse.takeWhile (fun c => c != '/')).reverse

/-- Model of filepath.Ext: the suffix starting at the final dot of the
final path element, empty when there is no dot. -/
def extOf (path : List Char) : List Char :=
  let base := lastElem path
  let revTail := base.reverse.takeWhile (fun c => c != '.')
  if revTail.length = base.length then []
  else '.' :: revTail.reverse

/-- Embed of Watcher.shouldWatch: lowercased extension among the fixed
source-file patterns. -/
def shouldWatch (path : List Char) : Bool :=
  watchPatterns.contains (lowerStr (extOf path))

/-- A raw fsnotify event: arrival time, path, and its operation bits. -/
structure RawEvent where
  time : Nat
  name : List Char
  write : Bool
  create : Bool
  remove : Bool
  rename : Bool
  chmod : Bool
deriving DecidableEq

/-- Embed of the Watch loop's event filter: relevant extension and an
operation intersecting write, create, rename or chmod. -/
def qualifies (e : RawEvent) : Bool :=
  shouldWatch e.name && (e.write || e.create || e.rename || e.chmod)

/-- The debounce state machine (see the section comment). -/
def debounceLoop (W : Nat) :
    Option (Nat × List Char) → List (Nat × List Char) → List (Nat × List Char)
  | none, [] => []
  | some (d, p), [] => [(d, p)]
  | none, (t, q) :: rest => debounceLoop W (some (t + W, q)) rest
  | some (d, p), (t, q) :: rest =>
    if d ≤ t then (d, p) :: debounceLoop W (some (t + W, q)) rest
    else debounceLoop W (some (t + W, q)) rest

/-- Embed of Watcher.Watch: filter the raw trace to qualifying events
and run the debounce machine with no timer pending. -/
def watchTrace (W : Nat) (events : List RawEvent) : List (Nat × List Char) :=
  debounceLoop W none ((events.filter qualifies).map (fun e => (e.time, e.name)))

def rawDefault : RawEvent := ⟨0, [], false, false, false, false, false⟩

theorem getLastD_map_pair (l : List RawEvent) :
    ∀ a : RawEvent,
      (l.map (fun e => (e.time, e.name))).getLastD (a.time, a.name) =
        ((l.getLastD a).time, (l.getLastD a).name) := by
  induction l with
  | nil => intro a; rfl
  | cons b bs ih =>
    intro a
    rw [List.map_cons, List.getLastD_cons, List.getLastD_cons]
    exact ih b

theorem debounceLoop_burst (W : Nat) (xs : List (Nat × List Char)) :
    ∀ t0 : Nat, ∀ p0 : List Char, 0 < W →
      List.Chain (fun a b => b.1 < a.1 + W) (t0, p0) xs →
      debounceLoop W (some (t0 + W, p0)) xs =
        [((xs.getLastD (t0, p0)).1 + W, (xs.getLastD (t0, p0)).2)] := by
  induction xs with
  | nil => intro t0 p0 _ _; rfl
  | cons x rest ih =>
    intro t0 p0 hW hchain
    obtain ⟨t, q⟩ := x
    rw [List.chain_cons] at hchain
    obtain ⟨hlt, hchain2⟩ := hchain
    show (if t0 + W ≤ t then _ else _) = _
    rw [if_neg (by omega)]
    rw [ih t q hW hchain2, List.getLastD_cons]

/-- Claim C6: a burst of qualifying events whose consecutive arrivals
are each less than the debounce window apart yields exactly one change
event carrying the last event's path (and the burst-end firing time),
while two qualifying events more than the window apart yield two change
events, one per event. -/
theorem c6_debounce_coalescing (W : Nat) (hW : 0 < W) :
    (∀ es : List RawEvent, es ≠ [] →
      List.Chain' (fun a b => b.time < a.time + W) es →
      (∀ e ∈ es, qualifies e = true) →
      watchTrace W es =
        [((es.getLastD rawDefault).time + W, (es.getLastD rawDefault).name)]) ∧
    (∀ e1 e2 : RawEvent, qualifies e1 = true → qualifies e2 = true →
      e1.time + W < e2.time →
      watchTrace W [e1, e2] =
        [(e1.time + W, e1.name), (e2.time + W, e2.name)]) := by
  constructor
  · intro es hne hchain hq
    unfold watchTrace
    rw [List.filter_eq_self.mpr hq]
    cases es with
    | nil => exact absurd rfl hne
    | cons e0 rest =>
      have hc : List.Chain (fun a b => b.time < a.time + W) e0 rest := hchain
      have hcm : List.Chain (fun a b : Nat × List Char => b.1 < a.1 + W)
          (e0.time, e0.name) (rest.map (fun e => (e.time, e.name))) :=
        (List.chain_map (fun e : RawEvent => (e.time, e.name))).mpr hc
      rw [List.map_cons]
      show debounceLoop W (some (e0.time + W, e0.name)) _ = _
      rw [debounceLoop_burst W _ e0.time e0.name hW hcm]
      rw [getLastD_map_pair rest e0]
      rw [List.getLastD_cons]
  · intro e1 e2 hq1 hq2 hgap
    unfold watchTrace
    rw [List.filter_cons, List.filter_cons]
    rw [if_pos (by simpa using hq1), if_pos (by simpa using hq2)]
    show debounceLoop W none [(e1.time, e1.name), (e2.time, e2.name)] = _
    show debounceLoop W (some (e1.time + W, e1.name)) [(e2.time, e2.name)] = _
    show (if e1.time + W ≤ e2.time then _ else _) = _
    rw [if_pos (by omega)]
    rfl

def evA : RawEvent := ⟨0, ("a.swift").toList, true, false, false, false, false⟩

def evB : RawEvent := ⟨100, ("b.swift").toList, true, false, false, false, false⟩

def evC : RawEvent := ⟨2000, ("c.swift").toList, true, false, false, false, false⟩

/-- Witness for C6: a two-event burst 100ms apart under a 750ms window
coalesces to one change event with the second path; two events 2000ms
apart produce two change events. -/
theorem c6_debounce_coalescing_witness :
    watchTrace 750 [evA, evB] = [(850, ("b.swift").toList)] ∧
    watchTrace 750 [evA, evC] =
      [(750, ("a.swift").toList), (2750, ("c.swift").toList)] := by
  constructor
  · have h := (c6_debounce_coalescing 750 (by decide)).1 [evA, evB] (by decide)
      (List.Chain.cons (by decide) List.Chain.nil) (by decide)
    exact h.trans (by decide)
  · have h := (c6_debounce_coalescing 750 (by decide)).2 evA evC (by decide)
      (by decide) (by decide)
    exact h.trans (by decide)

/-! ### Process executor (internal/process/runner.go Run)

The Run goroutine is embedded as the trace of channel operations it
performs.  A pipe-setup or start failure sends the error and returns;
otherwise the two reader goroutines forward the merged line sequence to
the output channel (each stream in its own order — the merged order is a
parameter), the wait group joins both readers, the process exit is
awaited, a non-nil exit error is sent, and the deferred closes run last
(the error channel's close was deferred second, so it runs first). -/

structure OutputLine where
  stream : List Char
  content : List Char
deriving DecidableEq

inductive PAction
  | outLine (l : OutputLine)
  | errSend
  | closeErr
  | closeOut
deriving DecidableEq

/-- Embed of Runner.Run's goroutine as its channel-operation trace. -/
def runTrace (startErr : Bool) (lines : List OutputLine) (exitErr : Bool) :
    List PAction :=
  if startErr then [PAction.errSend, PAction.closeErr, PAction.closeOut]
  else
    (lines.map PAction.outLine) ++ (if exitErr then [PAction.errSend] else []) ++
      [PAction.closeErr, PAction.closeOut]

theorem count_errSend_map (lines : List OutputLine) :
    (lines.map PAction.outLine).count PAction.errSend = 0 := by
  rw [List.count_eq_zero]
  intro h
  obtain ⟨l, _, hl⟩ := List.mem_map.mp h
  cases hl

theorem errSend_not_mem_map (lines : List OutputLine) :
    PAction.errSend ∉ lines.map PAction.outLine := by
  intro h
  obtain ⟨l, _, hl⟩ := List.mem_map.mp h
  cases hl

theorem unique_split {α : Type} [DecidableEq α] (x : α) :
    ∀ (a c b d : List α), a ++ x :: b = c ++ x :: d → x ∉ a → x ∉ c → b = d := by
  intro a
  induction a with
  | nil =>
    intro c b d h hxa hxc
    cases c with
    | nil => simpa using h
    | cons y c2 =>
      simp only [List.nil_append, List.cons_append] at h
      injection h with h1 h2
      exact absurd (h1 ▸ List.mem_cons_self y c2) hxc
  | cons y a2 ih =>
    intro c b d h hxa hxc
    cases c with
    | nil =>
      simp only [List.cons_append, List.nil_append] at h
      injection h with h1 h2
      exact absurd (h1 ▸ List.mem_cons_self y a2) hxa
    | cons z c2 =>
      simp only [List.cons_append] at h
      injection h with h1 h2
      exact ih c2 b d h2 (fun hm => hxa (List.mem_cons_of_mem _ hm))
        (fun hm => hxc (List.mem_cons_of_mem _ hm))

/-- Claim C7: all forwarded lines precede the exit handling (the readers
join before the exit is awaited), a start failure or non-zero exit is
surfaced exactly once on the error channel and is terminal (followed
only by the channel closes), and both channels close at the very end. -/
theorem c7_process_trace (startErr exitErr : Bool) (lines : List OutputLine) :
    ((runTrace startErr lines exitErr).count PAction.errSend =
      if startErr || exitErr then 1 else 0) ∧
    (∃ pre, runTrace startErr lines exitErr = pre ++ [PAction.closeErr, PAction.closeOut] ∧
      PAction.closeErr ∉ pre ∧ PAction.closeOut ∉ pre) ∧
    (∀ a b, runTrace startErr lines exitErr = a ++ PAction.errSend :: b →
      b = [PAction.closeErr, PAction.closeOut]) := by
  cases startErr with
  | true =>
    have htr : runTrace true lines exitErr =
        [PAction.errSend, PAction.closeErr, PAction.closeOut] := by
      unfold runTrace
      rw [if_pos rfl]
    refine ⟨?_, ⟨[PAction.errSend], by rw [htr]; rfl, by decide, by decide⟩, ?_⟩
    · rw [htr]
      cases exitErr <;> decide
    · intro a b h
      rw [htr] at h
      have hcnt : ([PAction.errSend, PAction.closeErr, PAction.closeOut] :
          List PAction).count PAction.errSend = 1 := by decide
      rw [h, List.count_append, List.count_cons_self] at hcnt
      have hxa : PAction.errSend ∉ a := by
        rw [← List.count_eq_zero]
        omega
      exact unique_split PAction.errSend a [] b [PAction.closeErr, PAction.closeOut]
        (by simpa using h.symm) hxa (by decide)
  | false =>
    have hcnt : (runTrace false lines exitErr).count PAction.errSend =
        if exitErr then 1 else 0 := by
      unfold runTrace
      rw [if_neg (by decide)]
      rw [List.count_append, List.count_append, count_errSend_map]
      cases exitErr <;> decide
    refine ⟨?_, ?_, ?_⟩
    · rw [hcnt]
      cases exitErr <;> decide
    · refine ⟨lines.map PAction.outLine ++ (if exitErr then [PAction.errSend] else []),
        by unfold runTrace; rw [if_neg (by decide)], ?_, ?_⟩
      · intro hm
        rcases List.mem_append.mp hm with hm1 | hm2
        · obtain ⟨l, _, hl⟩ := List.mem_map.mp hm1
          cases hl
        · cases exitErr <;> simp at hm2
      · intro hm
        rcases List.mem_append.mp hm with hm1 | hm2
        · obtain ⟨l, _, hl⟩ := List.mem_map.mp hm1
          cases hl
        · cases exitErr <;> simp at hm2
    · intro a b h
      cases exitErr with
      | false =>
        exfalso
        have hmem : PAction.errSend ∈ runTrace false lines false := by
          rw [h]
          exact List.mem_append_right a (List.mem_cons_self _ _)
        have : (runTrace false lines false).count PAction.errSend = 0 := by
          rw [hcnt]
          decide
        rw [List.count_eq_zero] at this
        exact this hmem
      | true =>
        have hform : runTrace false lines true =
            lines.map PAction.outLine ++
              PAction.errSend :: [PAction.closeErr, PAction.closeOut] := by
          unfold runTrace
          rw [if_neg (by decide), if_pos rfl]
          simp [List.append_assoc]
        have hxa : PAction.errSend ∉ a := by
          have h1 : (runTrace false lines true).count PAction.errSend = 1 := by
            rw [hcnt]
            decide
          rw [h, List.count_append, List.count_cons_self] at h1
          rw [List.count_eq_zero.symm]
          omega
        exact unique_split PAction.errSend a (lines.map PAction.outLine) b
          [PAction.closeErr, PAction.closeOut] (h.symm.trans hform) hxa
          (errSend_not_mem_map lines)

/-- Witness for C7 at a concrete start failure: the error is surfaced
once and an error-send decomposition ends in the two closes. -/
theorem c7_process_trace_witness :
    (runTrace true [] false).count PAction.errSend = 1 ∧
    ([PAction.closeErr, PAction.closeOut] : List PAction) =
      [PAction.closeErr, PAction.closeOut] := by
  have h := c7_process_trace true false []
  constructor
  · have h1 := h.1
    simpa using h1
  · exact h.2.2 [] [PAction.closeErr, PAction.closeOut] (by decide)

/-! ### Watch supervision loop (internal/run/runner.go buildCycle and
runWithWatch)

One iteration of the watch loop on a change event is embedded as a state
transition emitting a trace of abstract actions.  The build cycle's
external steps (build, artifact lookup, bundle-id extraction, boot,
install, terminate, launch) are driven by an environment of step
outcomes; Terminate ignores errors and so never fails.  The loop first
cancels the active log stream, runs the cycle, and on success updates
the session state, drains queued change events for the grace window and
restarts logs on the new identifier; on failure it restarts logs on the
previous identifier and continues without draining. -/

inductive CycleStep
  | build
  | findApp
  | extractID
  | boot
  | install
  | terminate (bundleID : List Char)
  | launch (bundleID : List Char)
deriving DecidableEq

structure CycleEnv where
  buildOk : Bool
  findOk : Bool
  appPath : List Char
  extractOk : Bool
  bundleID : List Char
  bootNeeded : Bool
  bootOk : Bool
  installOk : Bool
  launchOk : Bool
deriving DecidableEq

/-- Embed of Runner.buildCycle: the steps attempted in source order and
the resulting (app path, bundle id) on success. -/
def buildCycle (env : CycleEnv) : List CycleStep × Option (List Char × List Char) :=
  if env.buildOk = false then ([CycleStep.build], none)
  else if env.findOk = false then ([CycleStep.build, CycleStep.findApp], none)
  else if env.extractOk = false then
    ([CycleStep.build, CycleStep.findApp, CycleStep.extractID], none)
  else if env.bootNeeded = true ∧ env.bootOk = false then
    ([CycleStep.build, CycleStep.findApp, CycleStep.extractID, CycleStep.boot], none)
  else
    let pre := [CycleStep.build, CycleStep.findApp, CycleStep.extractID] ++
      (if env.bootNeeded = true then [CycleStep.boot] else [])
    if env.installOk = false then (pre ++ [CycleStep.install], none)
    else if env.launchOk = false then
      (pre ++ [CycleStep.install, CycleStep.terminate env.bundleID,
        CycleStep.launch env.bundleID], none)
    else
      (pre ++ [CycleStep.install, CycleStep.terminate env.bundleID,
        CycleStep.launch env.bundleID],
       some (env.appPath, env.bundleID))

inductive LoopAction
  | stopLogs
  | cycleStep (s : CycleStep)
  | drainEvents
  | startLogs (bundleID : List Char)
deriving DecidableEq

structure SessionState where
  appPath : List Char
  bundleID : List Char
deriving DecidableEq

/-- Embed of one runWithWatch iteration on a change event. -/
def watchIteration (st : SessionState) (env : CycleEnv) :
    SessionState × List LoopAction :=
  match buildCycle env with
  | (steps, none) =>
    (st, LoopAction.stopLogs :: steps.map LoopAction.cycleStep ++
      [LoopAction.startLogs st.bundleID])
  | (steps, some (newPath, newID)) =>
    (⟨newPath, newID⟩,
     LoopAction.stopLogs :: steps.map LoopAction.cycleStep ++
       [LoopAction.drainEvents, LoopAction.startLogs newID])

def stOld : SessionState :=
  ⟨("DD/Old.app").toList, ("com.example.app").toList⟩

def envBuildFail : CycleEnv :=
  ⟨false, true, ("DD/New.app").toList, true, ("com.example.app").toList,
   false, true, true, true⟩

def envLaunchFail : CycleEnv :=
  ⟨true, true, ("DD/New.app").toList, true, ("com.example.app").toList,
   false, true, true, false⟩

def envAllOk : CycleEnv :=
  ⟨true, true, ("DD/New.app").toList, true, ("com.example.app").toList,
   false, true, true, true⟩

/-- Counterexample to claim C1: after a failed rebuild the loop resumes
waiting immediately — no drain of queued change events occurs. -/
theorem c1_counterexample :
    (buildCycle envBuildFail).2 = none ∧
    LoopAction.drainEvents ∉ (watchIteration stOld envBuildFail).2 := by
  decide

/-- Claim C1 as amended: the grace-window drain of queued change events
happens exactly after a successful rebuild, between the session-state
update and the restart of log streaming; after a failed rebuild the loop
resumes waiting with no drain. -/
theorem c1_amended (st : SessionState) (env : CycleEnv) :
    ((buildCycle env).2 = none →
      LoopAction.drainEvents ∉ (watchIteration st env).2) ∧
    (∀ p bid, (buildCycle env).2 = some (p, bid) →
      (watchIteration st env).2 =
        LoopAction.stopLogs :: (buildCycle env).1.map LoopAction.cycleStep ++
          [LoopAction.drainEvents, LoopAction.startLogs bid]) := by
  unfold watchIteration
  rcases hbc : buildCycle env with ⟨steps, out⟩
  cases out with
  | none =>
    constructor
    · intro _
      dsimp only
      intro hmem
      simp only [List.mem_cons, List.mem_append, List.mem_map] at hmem
      rcases hmem with (h1 | ⟨s, hs, h2⟩) | h3
      · cases h1
      · cases h2
      · simp at h3
    · intro p bid h
      dsimp only at h
      cases h
  | some pr =>
    obtain ⟨newPath, newID⟩ := pr
    constructor
    · intro h
      dsimp only at h
      cases h
    · intro p bid h
      dsimp only at h ⊢
      rw [Option.some.injEq, Prod.mk.injEq] at h
      obtain ⟨h1, h2⟩ := h
      rw [h2]

/-- Witness for C1's amended theorem: no drain after a failed rebuild, a
drain before the log restart after a successful one. -/
theorem c1_amended_witness :
    LoopAction.drainEvents ∉ (watchIteration stOld envBuildFail).2 ∧
    (watchIteration stOld envAllOk).2 =
      LoopAction.stopLogs :: (buildCycle envAllOk).1.map LoopAction.cycleStep ++
        [LoopAction.drainEvents, LoopAction.startLogs (("com.example.app").toList)] := by
  constructor
  · exact (c1_amended stOld envBuildFail).1 (by decide)
  · exact (c1_amended stOld envAllOk).2 (("DD/New.app").toList)
      (("com.example.app").toList) (by decide)

/-- Counterexample to claim C5: a rebuild that fails at the launch step
has already terminated the running instance of the session's bundle
identifier, so the previously launched app was torn down even though the
rebuild failed. -/
theorem c5_counterexample :
    (buildCycle envLaunchFail).2 = none ∧
    LoopAction.cycleStep (CycleStep.terminate stOld.bundleID) ∈
      (watchIteration stOld envLaunchFail).2 := by
  decide

/-- Claim C5 as amended: when a rebuild fails, the session state is left
unchanged and log streaming is restarted against the previous bundle
identifier; the loop itself performs no teardown, and the cycle's
terminate-before-launch step has run only when every step up to install
succeeded and the launch itself failed (failures at build, artifact
lookup, extraction, boot or install leave the previous app untouched). -/
theorem c5_amended (st : SessionState) (env : CycleEnv)
    (h : (buildCycle env).2 = none) :
    (watchIteration st env).1 = st ∧
    (watchIteration st env).2 =
      LoopAction.stopLogs :: (buildCycle env).1.map LoopAction.cycleStep ++
        [LoopAction.startLogs st.bundleID] ∧
    (∀ b, CycleStep.terminate b ∈ (buildCycle env).1 →
      b = env.bundleID ∧ env.buildOk = true ∧ env.findOk = true ∧
        env.extractOk = true ∧ (env.bootNeeded = true → env.bootOk = true) ∧
        env.installOk = true ∧ env.launchOk = false) := by
  obtain ⟨b1, b2, ap, b3, bid, b4, b5, b6, b7⟩ := env
  cases b1 <;> cases b2 <;> cases b3 <;> cases b4 <;> cases b5 <;> cases b6 <;>
    cases b7 <;> simp_all [buildCycle, watchIteration]

/-- Witness for C5's amended theorem: a failed rebuild leaves the state
and restarts logs on the old identifier; at the launch-failure
environment the terminate step did run against the session's bundle id. -/
theorem c5_amended_witness :
    (watchIteration stOld envBuildFail).1 = stOld ∧
    (watchIteration stOld envBuildFail).2 =
      LoopAction.stopLogs :: (buildCycle envBuildFail).1.map LoopAction.cycleStep ++
        [LoopAction.startLogs stOld.bundleID] ∧
    (("com.example.app").toList = envLaunchFail.bundleID ∧
      envLaunchFail.buildOk = true ∧ envLaunchFail.findOk = true ∧
      envLaunchFail.extractOk = true ∧
      (envLaunchFail.bootNeeded = true → envLaunchFail.bootOk = true) ∧
      envLaunchFail.installOk = true ∧ envLaunchFail.launchOk = false) := by
  have h1 := c5_amended stOld envBuildFail (by decide)
  have h2 := c5_amended stOld envLaunchFail (by decide)
  exact ⟨h1.1, h1.2.1, h2.2.2 (("com.example.app").toList) (by decide)⟩

end Swiftctl
